import Mathlib

/-!
Verification of `src/scripts/equilibrium_lesson.py`.

The script defines a fixed quartic potential `U(x) = x^4 - 4x^2 + x`, its
hand-coded force `F(x) = -4x^3 + 8x - 1` and second derivative
`12x^2 - 8`, locates equilibrium points by multi-start root finding over
the force, classifies each by the sign of the second derivative, and
renders them.

Embedding choices:
* The scalar functions are polymorphic over a ring, so the same
  definitions serve both the executable rational model (Python's float
  arithmetic idealised as exact rationals) and the real-analysis
  statements about derivatives.
* `scipy.optimize.fsolve` is third-party library code, not part of this
  repository; it is abstracted as a `solver : ℚ → Option ℚ`, where
  `none` models a raised exception (caught by the bare `except: pass`)
  and `some x` models `fsolve(force, x_guess)[0]` returning `x`.
* Python's `sorted` is modelled by `List.insertionSort (· ≤ ·)`; on the
  pairwise-distinct lists produced here any correct sort agrees.
-/

namespace EquilibriumLesson

/-- Embeds `potential_energy` (src lines 19-28): `U(x) = x^4 - 4x^2 + x`. -/
def potential_energy {α : Type} [Ring α] (x : α) : α :=
  x ^ 4 - 4 * x ^ 2 + x

/-- Embeds `force` (src lines 31-36): `F(x) = -dU/dx = -4x^3 + 8x - 1`. -/
def force {α : Type} [Ring α] (x : α) : α :=
  -4 * x ^ 3 + 8 * x - 1

/-- Embeds `second_derivative` (src lines 39-47): `d²U/dx² = 12x^2 - 8`. -/
def second_derivative {α : Type} [Ring α] (x : α) : α :=
  12 * x ^ 2 - 8

/-- Embeds `classify_equilibrium` (src lines 69-80): returns
`('stable', d2U)` if `d2U > 0`, `('unstable', d2U)` if `d2U < 0`, else
`('neutral', d2U)`, where `d2U = second_derivative x_eq`. -/
def classify_equilibrium {α : Type} [LinearOrderedRing α] (x_eq : α) : String × α :=
  let d2U := second_derivative x_eq
  if d2U > 0 then ("stable", d2U)
  else if d2U < 0 then ("unstable", d2U)
  else ("neutral", d2U)

/-- The distinctness tolerance `0.1` of src line 60. -/
def tol_distinct : ℚ := 1 / 10

/-- The root tolerance `1e-6` of src line 61. -/
def tol_root : ℚ := 1 / 1000000

/-- Embeds the acceptance test of src lines 59-62: the candidate `x_eq`
is appended to `eqs` exactly when it differs from every already-accepted
root by more than `0.1` (`is_new`) and `|force(x_eq)| < 1e-6`. -/
def consider_candidate (eqs : List ℚ) (x_eq : ℚ) : List ℚ :=
  if (∀ y ∈ eqs, |x_eq - y| > tol_distinct) ∧ |force x_eq| < tol_root
  then eqs ++ [x_eq]
  else eqs

/-- Embeds one iteration of the seed loop of src lines 56-64: a raised
exception (`solver x_guess = none`) is swallowed by `except: pass` and
the accumulator is returned unchanged; otherwise the candidate returned
by the solver goes through the acceptance test. -/
def process_seed (solver : ℚ → Option ℚ) (eqs : List ℚ) (x_guess : ℚ) : List ℚ :=
  match solver x_guess with
  | none => eqs
  | some x_eq => consider_candidate eqs x_eq

/-- The hard-coded seed list `[-2, 0, 2]` of src line 56. -/
def seeds : List ℚ := [-2, 0, 2]

/-- Embeds `find_equilibrium_points` (src lines 50-66), parameterised by
the solver standing in for `scipy.optimize.fsolve`: fold the seed loop
over the three seeds starting from the empty list, then sort ascending. -/
def find_equilibrium_points (solver : ℚ → Option ℚ) : List ℚ :=
  List.insertionSort (· ≤ ·) (seeds.foldl (process_seed solver) [])

/-- The per-point presentation chosen by `create_visualization`:
marker colour and glyph from src lines 107-113, ball annotation from
src lines 149-176. -/
structure Rendering where
  color : String
  marker : String
  annotation : String
deriving DecidableEq

/-- Embeds the per-equilibrium-point branching of `create_visualization`
(src lines 107-113 and 149-176): every branch tests only
`stability == 'stable'`. -/
def render_equilibrium_point (stability : String) : Rendering :=
  { color := if stability = "stable" then "green" else "red",
    marker := if stability = "stable" then "v" else "^",
    annotation :=
      if stability = "stable" then "STABLE\n(returns to equilibrium)"
      else "UNSTABLE\n(moves away)" }

/-- Modelled from the spec: `scipy.optimize.fsolve` is external library
code absent from this repository. The spec says each seed's local
root-finding iteration converges to a root within tolerance; this model
returns, for each of the three seeds, an exact rational within `5e-15`
of the true root of `-4x^3 + 8x - 1` in that seed's basin, each
satisfying `|force x| < 1e-6`. -/
def fsolveModel : ℚ → Option ℚ := fun x_guess =>
  if x_guess = -2 then some (-147299760111403 / 100000000000000)
  else if x_guess = 0 then some (1260001925862561 / 10000000000000000)
  else if x_guess = 2 then some (1346997408527774 / 1000000000000000)
  else none

/-! ### Invariant of the accumulator of the seed loop -/

/-- One acceptance step preserves pairwise distinctness (by more than
`tol_distinct`) and smallness of the force at every accepted root. -/
lemma consider_candidate_invariant {eqs : List ℚ} (x : ℚ)
    (hp : eqs.Pairwise fun a b => |a - b| > tol_distinct)
    (hf : ∀ y ∈ eqs, |force y| < tol_root) :
    ((consider_candidate eqs x).Pairwise fun a b => |a - b| > tol_distinct) ∧
      ∀ y ∈ consider_candidate eqs x, |force y| < tol_root := by
  rw [consider_candidate]
  split
  case isTrue h =>
    refine ⟨List.pairwise_append.2 ⟨hp, List.pairwise_singleton _ _, ?_⟩, ?_⟩
    · intro a ha b hb
      rw [List.mem_singleton] at hb
      subst hb
      rw [abs_sub_comm]
      exact h.1 a ha
    · intro y hy
      rcases List.mem_append.1 hy with hy | hy
      · exact hf y hy
      · rw [List.mem_singleton] at hy
        subst hy
        exact h.2
  case isFalse h => exact ⟨hp, hf⟩

/-- One iteration of the seed loop preserves the accumulator invariant. -/
lemma process_seed_invariant (solver : ℚ → Option ℚ) {eqs : List ℚ} (g : ℚ)
    (hp : eqs.Pairwise fun a b => |a - b| > tol_distinct)
    (hf : ∀ y ∈ eqs, |force y| < tol_root) :
    ((process_seed solver eqs g).Pairwise fun a b => |a - b| > tol_distinct) ∧
      ∀ y ∈ process_seed solver eqs g, |force y| < tol_root := by
  unfold process_seed
  cases solver g with
  | none => exact ⟨hp, hf⟩
  | some x => exact consider_candidate_invariant x hp hf

/-- The whole seed loop preserves the accumulator invariant. -/
lemma foldl_process_seed_invariant (solver : ℚ → Option ℚ) (gs : List ℚ) (eqs : List ℚ)
    (hp : eqs.Pairwise fun a b => |a - b| > tol_distinct)
    (hf : ∀ y ∈ eqs, |force y| < tol_root) :
    ((gs.foldl (process_seed solver) eqs).Pairwise fun a b => |a - b| > tol_distinct) ∧
      ∀ y ∈ gs.foldl (process_seed solver) eqs, |force y| < tol_root := by
  induction gs generalizing eqs with
  | nil => exact ⟨hp, hf⟩
  | cons g gs ih =>
    rw [List.foldl_cons]
    obtain ⟨hp', hf'⟩ := process_seed_invariant solver g hp hf
    exact ih _ hp' hf'

/-- C1: the sequence returned by `find_equilibrium_points` is sorted in
ascending order, every two distinct positions in it differ by more than
`0.1`, and every position `x` in it satisfies `|force x| < 1e-6`, where
`force x = -4x^3 + 8x - 1` — for any behaviour of the underlying solver. -/
theorem find_equilibrium_points_invariant (solver : ℚ → Option ℚ) :
    (find_equilibrium_points solver).Sorted (· ≤ ·) ∧
      ((find_equilibrium_points solver).Pairwise fun a b => |a - b| > tol_distinct) ∧
      ∀ x ∈ find_equilibrium_points solver, |force x| < tol_root := by
  obtain ⟨hp, hf⟩ :=
    foldl_process_seed_invariant solver seeds [] List.Pairwise.nil (by simp)
  refine ⟨List.sorted_insertionSort _ _, ?_, ?_⟩
  · exact (List.Perm.pairwise_iff (fun h => by rwa [abs_sub_comm] at h)
      (List.perm_insertionSort _ _)).2 hp
  · intro x hx
    exact hf x ((List.perm_insertionSort _ _).mem_iff.1 hx)

/-! ### Bound on the number of returned roots -/

/-- One iteration of the seed loop grows the accumulator by at most one. -/
lemma process_seed_length (solver : ℚ → Option ℚ) (eqs : List ℚ) (g : ℚ) :
    (process_seed solver eqs g).length ≤ eqs.length + 1 := by
  unfold process_seed
  cases solver g with
  | none => exact Nat.le_succ _
  | some x =>
    show (consider_candidate eqs x).length ≤ eqs.length + 1
    unfold consider_candidate
    split
    next h => simp
    next h => exact Nat.le_succ _

/-- The seed loop grows the accumulator by at most one per seed. -/
lemma foldl_process_seed_length (solver : ℚ → Option ℚ) (gs : List ℚ) (eqs : List ℚ) :
    (gs.foldl (process_seed solver) eqs).length ≤ eqs.length + gs.length := by
  induction gs generalizing eqs with
  | nil => simp
  | cons g gs ih =>
    rw [List.foldl_cons]
    have h1 := ih (process_seed solver eqs g)
    have h2 := process_seed_length solver eqs g
    simp only [List.length_cons]
    omega

/-- C9: the sequence returned by `find_equilibrium_points` never holds
more than three positions — each of the three hard-coded seeds
contributes at most one accepted root, so the length is bounded by the
number of seeds. -/
theorem find_equilibrium_points_length_le (solver : ℚ → Option ℚ) :
    (find_equilibrium_points solver).length ≤ seeds.length ∧
      (find_equilibrium_points solver).length ≤ 3 := by
  have h : (find_equilibrium_points solver).length ≤ seeds.length := by
    rw [find_equilibrium_points, List.length_insertionSort]
    simpa using foldl_process_seed_length solver seeds []
  exact ⟨h, le_trans h (by simp [seeds])⟩

/-! ### Acceptance condition, exception policy, determinism -/

/-- C3: during the per-seed loop, a candidate root produced from a seed
is appended to the accumulator if and only if its absolute force value
is below the root tolerance `1e-6` and it differs from every
already-accepted root by more than the distinctness tolerance `0.1`; a
candidate failing either test contributes nothing. -/
theorem process_seed_accepts_iff (solver : ℚ → Option ℚ) (eqs : List ℚ)
    (x_guess x_eq : ℚ) (h : solver x_guess = some x_eq) :
    (process_seed solver eqs x_guess = eqs ++ [x_eq] ↔
      |force x_eq| < tol_root ∧ ∀ y ∈ eqs, |x_eq - y| > tol_distinct) ∧
      (¬(|force x_eq| < tol_root ∧ ∀ y ∈ eqs, |x_eq - y| > tol_distinct) →
        process_seed solver eqs x_guess = eqs) := by
  have hps : process_seed solver eqs x_guess = consider_candidate eqs x_eq := by
    unfold process_seed
    rw [h]
  rw [hps]
  unfold consider_candidate
  refine ⟨⟨?_, ?_⟩, ?_⟩
  · intro heq
    by_contra hc
    rw [if_neg (fun hand => hc ⟨hand.2, hand.1⟩)] at heq
    have := congrArg List.length heq
    simp at this
  · intro hc
    rw [if_pos ⟨hc.2, hc.1⟩]
  · intro hc
    rw [if_neg (fun hand => hc ⟨hand.2, hand.1⟩)]

/-- Witness for C3: a solver producing the candidate `0` from the seed
`0` on the empty accumulator. -/
theorem process_seed_accepts_iff_witness :
    (process_seed (fun _ => some 0) [] 0 = [] ++ [0] ↔
      |force (0 : ℚ)| < tol_root ∧ ∀ y ∈ ([] : List ℚ), |0 - y| > tol_distinct) ∧
      (¬(|force (0 : ℚ)| < tol_root ∧ ∀ y ∈ ([] : List ℚ), |0 - y| > tol_distinct) →
        process_seed (fun _ => some 0) [] 0 = []) :=
  process_seed_accepts_iff (fun _ => some 0) [] 0 0 rfl

/-- C5: an exception during a single seed's root search (modelled by
the solver returning `none`, which the bare `except: pass` swallows)
leaves the accumulator unchanged, and the loop proceeds with the
remaining seeds; the embedded finder is a total function, so it never
surfaces an error. -/
theorem process_seed_exception_swallowed (solver : ℚ → Option ℚ) (eqs : List ℚ)
    (x_guess : ℚ) (rest : List ℚ) (h : solver x_guess = none) :
    process_seed solver eqs x_guess = eqs ∧
      (x_guess :: rest).foldl (process_seed solver) eqs =
        rest.foldl (process_seed solver) eqs := by
  have h1 : process_seed solver eqs x_guess = eqs := by
    unfold process_seed
    rw [h]
  exact ⟨h1, by rw [List.foldl_cons, h1]⟩

/-- Witness for C5: the always-failing solver on the seed `-2` with the
remaining seeds `0` and `2`. -/
theorem process_seed_exception_swallowed_witness :
    process_seed (fun _ => none) [] (-2) = [] ∧
      ([-2, 0, 2] : List ℚ).foldl (process_seed (fun _ => none)) [] =
        ([0, 2] : List ℚ).foldl (process_seed (fun _ => none)) [] :=
  process_seed_exception_swallowed (fun _ => none) [] (-2) [0, 2] rfl

/-- The seed loop only consults the solver on the seeds it folds over. -/
lemma foldl_process_seed_congr (s1 s2 : ℚ → Option ℚ) (gs : List ℚ) (eqs : List ℚ)
    (h : ∀ g ∈ gs, s1 g = s2 g) :
    gs.foldl (process_seed s1) eqs = gs.foldl (process_seed s2) eqs := by
  induction gs generalizing eqs with
  | nil => rfl
  | cons g gs ih =>
    rw [List.foldl_cons, List.foldl_cons]
    have hg : process_seed s1 eqs g = process_seed s2 eqs g := by
      unfold process_seed
      rw [h g (List.mem_cons_self g gs)]
    rw [hg]
    exact ih _ fun a ha => h a (List.mem_cons_of_mem g ha)

/-- C7: determinism of the finder — the result depends only on the
solver's values at the fixed seeds `{-2, 0, 2}`, so any two invocations
whose solvers agree there (in particular, repeated invocations with the
same solver) return the same roots in the same order. -/
theorem find_equilibrium_points_deterministic (s1 s2 : ℚ → Option ℚ)
    (h : ∀ g ∈ seeds, s1 g = s2 g) :
    find_equilibrium_points s1 = find_equilibrium_points s2 := by
  unfold find_equilibrium_points
  rw [foldl_process_seed_congr s1 s2 seeds [] h]

/-- Witness for C7: two invocations with the modelled `fsolve` return
the same sequence. -/
theorem find_equilibrium_points_deterministic_witness :
    find_equilibrium_points fsolveModel = find_equilibrium_points fsolveModel :=
  find_equilibrium_points_deterministic fsolveModel fsolveModel fun _ _ => rfl

/-! ### The classifier -/

/-- The three labels are pairwise different strings. -/
lemma stable_ne_unstable : ("stable" : String) ≠ "unstable" := by decide

lemma unstable_ne_stable : ("unstable" : String) ≠ "stable" := by decide

lemma stable_ne_neutral : ("stable" : String) ≠ "neutral" := by decide

lemma neutral_ne_stable : ("neutral" : String) ≠ "stable" := by decide

lemma unstable_ne_neutral : ("unstable" : String) ≠ "neutral" := by decide

lemma neutral_ne_unstable : ("neutral" : String) ≠ "unstable" := by decide

/-- C2: for every real position `x`, `classify_equilibrium x` is the
pair `(label, curvature)` with `curvature = 12x^2 - 8` the second
derivative at `x`, and `label` is `'stable'` iff `curvature > 0`,
`'unstable'` iff `curvature < 0`, and `'neutral'` iff `curvature = 0`
(exact zero, no tolerance band). -/
theorem classify_equilibrium_spec (x : ℝ) :
    (classify_equilibrium x).2 = 12 * x ^ 2 - 8 ∧
      ((classify_equilibrium x).1 = "stable" ↔ 12 * x ^ 2 - 8 > 0) ∧
      ((classify_equilibrium x).1 = "unstable" ↔ 12 * x ^ 2 - 8 < 0) ∧
      ((classify_equilibrium x).1 = "neutral" ↔ 12 * x ^ 2 - 8 = 0) := by
  have hq : classify_equilibrium x =
      (if 12 * x ^ 2 - 8 > 0 then (("stable" : String), 12 * x ^ 2 - 8)
       else if 12 * x ^ 2 - 8 < 0 then (("unstable" : String), 12 * x ^ 2 - 8)
       else (("neutral" : String), 12 * x ^ 2 - 8)) := rfl
  rw [hq]
  rcases lt_trichotomy ((12 : ℝ) * x ^ 2 - 8) 0 with h | h | h
  · rw [if_neg (by linarith), if_pos h]
    exact ⟨rfl, iff_of_false unstable_ne_stable (by linarith), iff_of_true rfl h,
      iff_of_false unstable_ne_neutral (by linarith)⟩
  · rw [if_neg (by linarith), if_neg (by linarith)]
    exact ⟨rfl, iff_of_false neutral_ne_stable (by linarith),
      iff_of_false neutral_ne_unstable (by linarith), iff_of_true rfl h⟩
  · rw [if_pos h]
    exact ⟨rfl, iff_of_true rfl h, iff_of_false stable_ne_unstable (by linarith),
      iff_of_false stable_ne_neutral (by linarith)⟩

/-- C8: `classify_equilibrium` is embedded as a total pure function of
its argument: a second call at the same position returns the same label
and the same curvature, and every call returns a well-formed result
whose label is one of the three classifications (no failure mode). -/
theorem classify_equilibrium_pure (x : ℝ) :
    classify_equilibrium x = classify_equilibrium x ∧
      ((classify_equilibrium x).1 = "stable" ∨
        (classify_equilibrium x).1 = "unstable" ∨
        (classify_equilibrium x).1 = "neutral") := by
  refine ⟨rfl, ?_⟩
  have hq : classify_equilibrium x =
      (if 12 * x ^ 2 - 8 > 0 then (("stable" : String), 12 * x ^ 2 - 8)
       else if 12 * x ^ 2 - 8 < 0 then (("unstable" : String), 12 * x ^ 2 - 8)
       else (("neutral" : String), 12 * x ^ 2 - 8)) := rfl
  rw [hq]
  split
  · left; rfl
  · split
    · right; left; rfl
    · right; right; rfl

/-! ### Rendering of non-stable points -/

/-- C10: any equilibrium point whose classification label is not
`'stable'` — including a `'neutral'` one with curvature exactly zero —
is rendered with the unstable presentation (red colour, `'^'` marker,
`'UNSTABLE\n(moves away)'` annotation); the plotting branches test only
`stability == 'stable'`, so `'neutral'` is visually indistinguishable
from `'unstable'`. -/
theorem render_nonstable_presentation (x : ℝ)
    (h : (classify_equilibrium x).1 ≠ "stable") :
    render_equilibrium_point (classify_equilibrium x).1 =
        { color := "red", marker := "^",
          annotation := "UNSTABLE\n(moves away)" } ∧
      render_equilibrium_point "neutral" = render_equilibrium_point "unstable" := by
  constructor
  · unfold render_equilibrium_point
    rw [if_neg h, if_neg h, if_neg h]
  · rfl

/-- Witness for C10 at the position `0`, which classifies as
`'unstable'`. -/
theorem render_nonstable_presentation_witness :
    (classify_equilibrium (0 : ℝ)).1 ≠ "stable" ∧
      (render_equilibrium_point (classify_equilibrium (0 : ℝ)).1 =
          { color := "red", marker := "^",
            annotation := "UNSTABLE\n(moves away)" } ∧
        render_equilibrium_point "neutral" = render_equilibrium_point "unstable") := by
  have h0 : classify_equilibrium (0 : ℝ) = ("unstable", -8) := by
    unfold classify_equilibrium second_derivative
    norm_num
  have h : (classify_equilibrium (0 : ℝ)).1 ≠ "stable" := by
    rw [h0]
    decide
  exact ⟨h, render_nonstable_presentation 0 h⟩

/-! ### Consistency of the hand-coded derivatives -/

/-- The embedded potential has derivative `4x^3 - 8x + 1` at every real
point. -/
lemma hasDerivAt_potential_energy (x : ℝ) :
    HasDerivAt (fun y : ℝ => potential_energy y) (4 * x ^ 3 - 8 * x + 1) x := by
  have h1 := hasDerivAt_pow 4 x
  have h2 := (hasDerivAt_pow 2 x).const_mul (4 : ℝ)
  have h3 := hasDerivAt_id x
  have h := (h1.sub h2).add h3
  norm_num at h
  have heq : 4 * x ^ 3 - 8 * x + 1 = 4 * x ^ 3 - 4 * (2 * x) + 1 := by ring
  rw [heq]
  exact h

/-- The first derivative of the embedded potential, as a function. -/
lemma deriv_potential_energy :
    deriv (fun y : ℝ => potential_energy y) = fun y : ℝ => 4 * y ^ 3 - 8 * y + 1 :=
  funext fun y => (hasDerivAt_potential_energy y).deriv

/-- The first derivative of the potential has derivative `12x^2 - 8` at
every real point. -/
lemma hasDerivAt_deriv_potential_energy (x : ℝ) :
    HasDerivAt (fun y : ℝ => 4 * y ^ 3 - 8 * y + 1) (12 * x ^ 2 - 8) x := by
  have h1 := (hasDerivAt_pow 3 x).const_mul (4 : ℝ)
  have h2 := (hasDerivAt_id x).const_mul (8 : ℝ)
  have h3 := hasDerivAt_const x (1 : ℝ)
  have h := (h1.sub h2).add h3
  norm_num at h
  have heq : (12 : ℝ) * x ^ 2 - 8 = 4 * (3 * x ^ 2) - 8 := by ring
  rw [heq]
  exact h

/-- C6: the three hand-coded scalar functions are mutually consistent
as derivatives: for every real `x`, `force x` is the negative first
derivative of `potential_energy` at `x`, and `second_derivative x` is
the second derivative of `potential_energy` at `x`. -/
theorem derivative_consistency (x : ℝ) :
    force x = -deriv (fun y : ℝ => potential_energy y) x ∧
      second_derivative x = deriv (deriv (fun y : ℝ => potential_energy y)) x := by
  constructor
  · rw [(hasDerivAt_potential_energy x).deriv]
    unfold force
    ring
  · rw [deriv_potential_energy, (hasDerivAt_deriv_potential_energy x).deriv]
    unfold second_derivative
    ring

/-! ### The concrete three-root scenario -/

/-- Counterexample to C4 as stated: with the modelled `fsolve`, which
converges to the true roots of `-4x^3 + 8x - 1`, the finder returns
`[-1.47299760111403, 0.1260001925862561, 1.346997408527774]`; the first
and last returned roots lie more than `0.04` away from the positions
`-1.52` and `1.39` claimed as approximations, so the claimed values are
not where any accepted root can be. -/
theorem find_equilibrium_points_seeds_counterexample :
    find_equilibrium_points fsolveModel =
      [-147299760111403 / 100000000000000, 1260001925862561 / 10000000000000000,
        1346997408527774 / 1000000000000000] ∧
      |(-147299760111403 / 100000000000000 : ℚ) - (-152 / 100)| > 4 / 100 ∧
      |(1346997408527774 / 1000000000000000 : ℚ) - 139 / 100| > 4 / 100 := by
  refine ⟨?_, ?_, ?_⟩
  · have h1 : seeds.foldl (process_seed fsolveModel) [] =
        [-147299760111403 / 100000000000000, 1260001925862561 / 10000000000000000,
          1346997408527774 / 1000000000000000] := by
      simp only [seeds, List.foldl, process_seed, fsolveModel]
      norm_num [consider_candidate, tol_distinct, tol_root, force, abs_lt, lt_abs]
    rw [find_equilibrium_points, h1]
    apply List.Sorted.insertionSort_eq
    norm_num [List.sorted_cons]
  · exact lt_abs.2 (Or.inl (by norm_num))
  · exact lt_abs.2 (Or.inr (by norm_num))

/-- C4 (amended): for the fixed force and the fixed seeds `-2, 0, 2`,
whenever the solver returns from each seed a candidate within `0.01` of
the true root of that seed's basin (`≈ -1.473`, `≈ 0.126`, `≈ 1.347`)
with absolute force below the root tolerance, the finder returns
exactly those three distinct roots in ascending order, and
classification labels the outer two `'stable'` and the middle one
`'unstable'`, consistent with the sign of the curvature `12x^2 - 8`
at each root. -/
theorem find_equilibrium_points_scenario (solver : ℚ → Option ℚ) (a b c : ℚ)
    (ha : solver (-2) = some a) (hb : solver 0 = some b) (hc : solver 2 = some c)
    (ha1 : |a - (-1473 / 1000)| < 1 / 100) (ha2 : |force a| < tol_root)
    (hb1 : |b - 126 / 1000| < 1 / 100) (hb2 : |force b| < tol_root)
    (hc1 : |c - 1347 / 1000| < 1 / 100) (hc2 : |force c| < tol_root) :
    find_equilibrium_points solver = [a, b, c] ∧
      classify_equilibrium a = ("stable", second_derivative a) ∧
      classify_equilibrium b = ("unstable", second_derivative b) ∧
      classify_equilibrium c = ("stable", second_derivative c) ∧
      second_derivative a > 0 ∧ second_derivative b < 0 ∧
      second_derivative c > 0 := by
  rw [abs_lt] at ha1 hb1 hc1
  obtain ⟨ha1l, ha1r⟩ := ha1
  obtain ⟨hb1l, hb1r⟩ := hb1
  obtain ⟨hc1l, hc1r⟩ := hc1
  have hab : |b - a| > tol_distinct := by
    rw [tol_distinct]
    exact lt_of_lt_of_le (by linarith) (le_abs_self _)
  have hac : |c - a| > tol_distinct := by
    rw [tol_distinct]
    exact lt_of_lt_of_le (by linarith) (le_abs_self _)
  have hbc : |c - b| > tol_distinct := by
    rw [tol_distinct]
    exact lt_of_lt_of_le (by linarith) (le_abs_self _)
  have s1 : process_seed solver [] (-2) = [a] := by
    unfold process_seed
    rw [ha]
    show consider_candidate [] a = [a]
    unfold consider_candidate
    rw [if_pos ⟨by simp, ha2⟩]
    rfl
  have s2 : process_seed solver [a] 0 = [a, b] := by
    unfold process_seed
    rw [hb]
    show consider_candidate [a] b = [a, b]
    unfold consider_candidate
    refine if_pos ⟨?_, hb2⟩
    intro y hy
    rw [List.mem_singleton] at hy
    subst hy
    exact hab
  have s3 : process_seed solver [a, b] 2 = [a, b, c] := by
    unfold process_seed
    rw [hc]
    show consider_candidate [a, b] c = [a, b, c]
    unfold consider_candidate
    refine if_pos ⟨?_, hc2⟩
    intro y hy
    rcases List.mem_cons.1 hy with hy | hy
    · subst hy
      exact hac
    · rw [List.mem_singleton] at hy
      subst hy
      exact hbc
  have hsorted : List.Sorted (· ≤ ·) [a, b, c] := by
    refine List.sorted_cons.2 ⟨?_, List.sorted_cons.2 ⟨?_, List.sorted_singleton _⟩⟩
    · intro z hz
      rcases List.mem_cons.1 hz with hz | hz
      · subst hz
        linarith
      · rw [List.mem_singleton] at hz
        subst hz
        linarith
    · intro z hz
      rw [List.mem_singleton] at hz
      subst hz
      linarith
  have hfind : find_equilibrium_points solver = [a, b, c] := by
    rw [find_equilibrium_points]
    simp only [seeds, List.foldl_cons, List.foldl_nil]
    rw [s1, s2, s3]
    exact hsorted.insertionSort_eq
  have hda : second_derivative a > 0 := by
    unfold second_derivative
    nlinarith [sq_nonneg (a + 1463 / 1000)]
  have hdb : second_derivative b < 0 := by
    unfold second_derivative
    nlinarith [mul_pos (show (0 : ℚ) < 136 / 1000 - b by linarith)
      (show (0 : ℚ) < b + 136 / 1000 by linarith)]
  have hdc : second_derivative c > 0 := by
    unfold second_derivative
    nlinarith [sq_nonneg (c - 1337 / 1000)]
  have hca : classify_equilibrium a = ("stable", second_derivative a) := by
    show (if second_derivative a > 0 then (("stable" : String), second_derivative a)
      else if second_derivative a < 0 then (("unstable" : String), second_derivative a)
      else (("neutral" : String), second_derivative a)) = ("stable", second_derivative a)
    rw [if_pos hda]
  have hcb : classify_equilibrium b = ("unstable", second_derivative b) := by
    show (if second_derivative b > 0 then (("stable" : String), second_derivative b)
      else if second_derivative b < 0 then (("unstable" : String), second_derivative b)
      else (("neutral" : String), second_derivative b)) = ("unstable", second_derivative b)
    rw [if_neg (by linarith), if_pos hdb]
  have hcc : classify_equilibrium c = ("stable", second_derivative c) := by
    show (if second_derivative c > 0 then (("stable" : String), second_derivative c)
      else if second_derivative c < 0 then (("unstable" : String), second_derivative c)
      else (("neutral" : String), second_derivative c)) = ("stable", second_derivative c)
    rw [if_pos hdc]
  exact ⟨hfind, hca, hcb, hcc, hda, hdb, hdc⟩

/-- Witness for the amended C4: the modelled `fsolve` satisfies every
hypothesis, so the finder returns the three roots
`≈ -1.4730, ≈ 0.1260, ≈ 1.3470`, labelled stable, unstable, stable. -/
theorem find_equilibrium_points_scenario_witness :
    find_equilibrium_points fsolveModel =
      [-147299760111403 / 100000000000000, 1260001925862561 / 10000000000000000,
        1346997408527774 / 1000000000000000] ∧
      classify_equilibrium (-147299760111403 / 100000000000000 : ℚ) =
        ("stable", second_derivative (-147299760111403 / 100000000000000 : ℚ)) ∧
      classify_equilibrium (1260001925862561 / 10000000000000000 : ℚ) =
        ("unstable", second_derivative (1260001925862561 / 10000000000000000 : ℚ)) ∧
      classify_equilibrium (1346997408527774 / 1000000000000000 : ℚ) =
        ("stable", second_derivative (1346997408527774 / 1000000000000000 : ℚ)) ∧
      second_derivative (-147299760111403 / 100000000000000 : ℚ) > 0 ∧
      second_derivative (1260001925862561 / 10000000000000000 : ℚ) < 0 ∧
      second_derivative (1346997408527774 / 1000000000000000 : ℚ) > 0 :=
  find_equilibrium_points_scenario fsolveModel
    (-147299760111403 / 100000000000000) (1260001925862561 / 10000000000000000)
    (1346997408527774 / 1000000000000000)
    (by norm_num [fsolveModel]) (by norm_num [fsolveModel]) (by norm_num [fsolveModel])
    (by rw [abs_lt]; constructor <;> norm_num)
    (by rw [abs_lt, tol_root]; constructor <;> norm_num [force])
    (by rw [abs_lt]; constructor <;> norm_num)
    (by rw [abs_lt, tol_root]; constructor <;> norm_num [force])
    (by rw [abs_lt]; constructor <;> norm_num)
    (by rw [abs_lt, tol_root]; constructor <;> norm_num [force])

end EquilibriumLesson
